import Mathlib

/-
Verification of the CPE correlation engine of zjs_project.

The definitions below are shallow embeddings of the Python functions in
`src/services/matching_service.py` and `src/utils/cpe_generator.py`:
Python dicts become association lists, `str.split` becomes an explicit
character-list splitter, `try/except` around version parsing becomes an
Option-valued parser, and Python exceptions raised on corrupt stored
records become `Except` errors.
-/

namespace ZjsProof

/-- Model of Python's `str.split(sep)` for a single-character separator,
working on the character list of the string.  Like Python's `split`, it
never returns an empty list: splitting the empty string yields `[[]]`. -/
def splitOnChar (sep : Char) : List Char → List (List Char)
  | [] => [[]]
  | c :: cs =>
    if c = sep then [] :: splitOnChar sep cs
    else
      match splitOnChar sep cs with
      | [] => [[c]]
      | t :: ts => (c :: t) :: ts

/-- Python's `s.split(":")` on a Lean string. -/
def pySplit (s : String) : List String :=
  (splitOnChar ':' s.data).map String.mk

/-- Value of a run of decimal digit characters. -/
def digitsToNat (l : List Char) : Nat :=
  l.foldl (fun acc c => acc * 10 + (c.toNat - '0'.toNat)) 0

/-- Modelled from the spec: the Version Comparator (the `packaging` library,
an external collaborator not part of this repository) "must support purely
numeric dotted versions (e.g. 1.25.3) as the primary case" and reject
malformed strings.  A version string parses iff every dot-separated
component is a nonempty run of digits; the result is the list of numeric
components. -/
def parseVersion (s : String) : Option (List Nat) :=
  let comps := splitOnChar '.' s.data
  if comps.all (fun p => !p.isEmpty && p.all Char.isDigit) then
    some (comps.map digitsToNat)
  else
    none

/-- Every numeric component is zero. -/
def allZero : List Nat → Bool
  | [] => true
  | x :: xs => x == 0 && allZero xs

/-- Modelled from the spec: total-order comparison of parsed dotted-numeric
versions, with missing trailing components treated as zero (so `1.25` and
`1.25.0` compare equal), as the external comparator does. -/
def verCmp : List Nat → List Nat → Ordering
  | [], ys => if allZero ys then .eq else .lt
  | x :: xs, [] => if allZero (x :: xs) then .eq else .gt
  | x :: xs, y :: ys =>
    if x < y then .lt else if y < x then .gt else verCmp xs ys

def ordIsLt : Ordering → Bool
  | .lt => true
  | _ => false

def ordIsGt : Ordering → Bool
  | .gt => true
  | _ => false

/-- Lookup in an association list, modelling Python's `dict.get`. -/
def dictGet {α : Type} : List (String × α) → String → Option α
  | [], _ => none
  | (k, v) :: rest, key => if k = key then some v else dictGet rest key

/-- A version-range descriptor: a Python dict from bound-key names to
version strings (it may also carry keys other than the four bound keys). -/
abbrev RangeDict := List (String × String)

/-- Python's `a or b` on two optional dicts: a present but empty dict is
falsy, so it falls through to the second operand. -/
def pyOrDicts (a b : Option RangeDict) : Option RangeDict :=
  match a with
  | some d => if d.isEmpty then b else some d
  | none => b

/-- One bound block of `match_version_range`: if `key` is present, its value
is parsed; a parse failure or a violated bound makes the whole predicate
return `False` (this is the `return False` inside each `try/except` block). -/
def boundFails (pr : RangeDict) (key : String) (viol : List Nat → Bool) : Bool :=
  match dictGet pr key with
  | none => false
  | some s =>
    match parseVersion s with
    | none => true
    | some bv => viol bv

/-- Embedding of `match_version_range` (matching_service.py, lines 52-133).
The product ranges are found by `ranges.get(product) or
ranges.get(vendor + ":" + product)`; a falsy result (absent key or empty
dict) returns `False`; then the four bound checks run in order, each
returning `False` on a parse failure or a violated bound. -/
def match_version_range (asset_vendor asset_product asset_version : String)
    (vulnerability_ranges : List (String × RangeDict)) : Bool :=
  if vulnerability_ranges.isEmpty then false
  else
    match pyOrDicts (dictGet vulnerability_ranges asset_product)
        (dictGet vulnerability_ranges (asset_vendor ++ ":" ++ asset_product)) with
    | none => false
    | some pr =>
      if pr.isEmpty then false
      else
        match parseVersion asset_version with
        | none => false
        | some av =>
          if boundFails pr "versionStartIncluding" (fun bv => ordIsLt (verCmp av bv)) then false
          else if boundFails pr "versionStartExcluding" (fun bv => !(ordIsGt (verCmp av bv))) then false
          else if boundFails pr "versionEndIncluding" (fun bv => ordIsGt (verCmp av bv)) then false
          else if boundFails pr "versionEndExcluding" (fun bv => !(ordIsLt (verCmp av bv))) then false
          else true

/-- Embedding of `match_exact` (matching_service.py, lines 26-49): the first
8 colon-separated parts of the two CPE strings must be equal. -/
def match_exact (asset_cpe vulnerability_cpe : String) : Bool :=
  decide ((pySplit asset_cpe).take 8 = (pySplit vulnerability_cpe).take 8)

/-- Embedding of `match_wildcard` (matching_service.py, lines 136-175):
both strings need at least 8 parts, part/vendor/product (indices 2-4) must
agree, and the advisory's parts 5-7 must all be the wildcard token. -/
def match_wildcard (asset_cpe vulnerability_cpe : String) : Bool :=
  let asset_parts := pySplit asset_cpe
  let vuln_parts := pySplit vulnerability_cpe
  if asset_parts.length < 8 || vuln_parts.length < 8 then false
  else if asset_parts.getD 2 "" != vuln_parts.getD 2 ""
      || asset_parts.getD 3 "" != vuln_parts.getD 3 ""
      || asset_parts.getD 4 "" != vuln_parts.getD 4 "" then false
  else if ((vuln_parts.drop 5).take 3).all (· == "*") then true
  else false

/-- Components returned by `extract_cpe_parts`. -/
structure CpeParts where
  cpePart : String
  vendor : String
  product : String
  version : String
deriving Repr, DecidableEq

/-- Embedding of `extract_cpe_parts` (cpe_generator.py, lines 243-266):
returns `none` when the string has fewer than 6 colon-separated parts or
the first two parts are not `cpe` and `2.3`; otherwise returns parts 2-5. -/
def extract_cpe_parts (cpe_code : String) : Option CpeParts :=
  let comps := pySplit cpe_code
  if comps.length < 6 || comps.getD 0 "" != "cpe" || comps.getD 1 "" != "2.3" then
    none
  else
    some ⟨comps.getD 2 "", comps.getD 3 "", comps.getD 4 "", comps.getD 5 ""⟩

/-- Embedding of `normalize_name` (cpe_generator.py, lines 101-119):
lowercase, then spaces and slashes become underscores.  Both Python
operations are per-character here (the replace patterns are single
characters), so the embedding maps over the character list; lowercasing is
ASCII as in the repository's data. -/
def normalize_name (name : String) : String :=
  String.mk ((name.data.map Char.toLower).map
    (fun c => if c = ' ' then '_' else if c = '/' then '_' else c))

/-- Embedding of `normalize_version` (cpe_generator.py, lines 70-98): drop
the leading run of constraint-operator characters (`^~>=<`), cut at the
first `-` or underscore, and strip surrounding whitespace. -/
def normalize_version (version : String) : String :=
  let v1 := version.data.dropWhile
    (fun c => c = '^' || c = '~' || c = '>' || c = '=' || c = '<')
  let v2 := v1.takeWhile (fun c => c ≠ '-' && c ≠ '_')
  String.mk (((v2.dropWhile Char.isWhitespace).reverse.dropWhile Char.isWhitespace).reverse)

/-- Embedding of `generate_cpe_from_manual` (cpe_generator.py, lines
122-144): normalizes the three inputs and interpolates them into the fixed
CPE 2.3 template with wildcard trailing fields. -/
def generate_cpe_from_manual (vendor product version : String) : String :=
  "cpe:2.3:a:" ++ normalize_name vendor ++ ":" ++ normalize_name product ++ ":"
    ++ normalize_version version ++ ":*:*:*:*:*:*:*"

/-- The `affected_products` JSON column of a stored vulnerability.  A
well-typed payload is a dict holding a `cpe` list and a `version_ranges`
map (each defaulting to empty when its key is absent, as the source's
`.get(key, default)` calls do).  `corrupt` models a stored value that is
not a dict, on which the source's attribute access raises. -/
inductive APayload where
  | ok (cpe : List String) (version_ranges : List (String × RangeDict))
  | corrupt
deriving Repr, DecidableEq

/-- The fields of an Asset row that the matching engine reads. -/
structure Asset where
  asset_id : String
  cpe_code : String
deriving Repr, DecidableEq

/-- The fields of a Vulnerability row that the matching engine reads. -/
structure Vulnerability where
  cve_id : String
  affected_products : Option APayload
deriving Repr, DecidableEq

/-- Embedding of `extract_cpe_from_vulnerability` (matching_service.py,
lines 178-195): `affected_products or empty-dict`, then `.get("cpe", [])`.
A corrupt payload makes the attribute access raise, modelled as `.error`. -/
def extract_cpe_from_vulnerability (v : Vulnerability) : Except Unit (List String) :=
  match v.affected_products with
  | none => .ok []
  | some (.ok cpe _) => .ok cpe
  | some .corrupt => .error ()

/-- Embedding of line 227 of matching_service.py:
`vulnerability.affected_products.get("version_ranges", {}) if
vulnerability.affected_products else {}`. -/
def get_version_ranges (v : Vulnerability) : Except Unit (List (String × RangeDict)) :=
  match v.affected_products with
  | none => .ok []
  | some (.ok _ vr) => .ok vr
  | some .corrupt => .error ()

/-- Embedding of `execute_matching` (matching_service.py, lines 198-240):
the single-pair resolver, trying exact match over every advisory CPE, then
the version-range lookup, then wildcard match over every advisory CPE, and
returning `none` when none succeeds.  Exceptions raised on corrupt stored
payloads propagate as `.error`. -/
def execute_matching (asset : Asset) (vulnerability : Vulnerability) :
    Except Unit (Option String) := do
  let vuln_cpe_list ← extract_cpe_from_vulnerability vulnerability
  if vuln_cpe_list.any (fun c => match_exact asset.cpe_code c) then
    return some "exact_match"
  let version_ranges ← get_version_ranges vulnerability
  let range_hit :=
    if !version_ranges.isEmpty then
      match extract_cpe_parts asset.cpe_code with
      | some ps => match_version_range ps.vendor ps.product ps.version version_ranges
      | none => false
    else false
  if range_hit then
    return some "version_range"
  if vuln_cpe_list.any (fun c => match_wildcard asset.cpe_code c) then
    return some "wildcard_match"
  return none

/-- One row of the `asset_vulnerability_matches` table (asset.py; the pair
`(asset_id, cve_id)` carries a unique constraint, asset.py line 180). -/
structure MatchRecord where
  asset_id : String
  cve_id : String
  match_reason : String
  matched_at : Nat
deriving Repr, DecidableEq

/-- The upsert key of a match record. -/
def MatchRecord.key (r : MatchRecord) : String × String :=
  (r.asset_id, r.cve_id)

/-- The state the batch engine reads and writes: the asset and
vulnerability tables and the match-record store. -/
structure DB where
  assets : List Asset
  vulnerabilities : List Vulnerability
  store : List MatchRecord
deriving Repr

/-- The statistics dictionary returned by `execute_full_matching`. -/
structure Stats where
  total_assets : Nat
  total_vulnerabilities : Nat
  total_matches : Nat
  exact_matches : Nat
  version_range_matches : Nat
  wildcard_matches : Nat
deriving Repr, DecidableEq

/-- Embedding of the engine's UPSERT (matching_service.py, lines 297-311):
`INSERT ... ON CONFLICT (asset_id, cve_id) DO UPDATE SET match_reason,
matched_at`.  When a row with the same key exists it is overwritten in
place; otherwise a new row is appended. -/
def upsert (store : List MatchRecord) (m : MatchRecord) : List MatchRecord :=
  if store.any (fun r => r.key = m.key) then
    store.map (fun r =>
      if r.key = m.key then
        { r with match_reason := m.match_reason, matched_at := m.matched_at }
      else r)
  else store ++ [m]

/-- Inner loop of `execute_full_matching` (lines 281-293): resolve one
asset against every vulnerability, collecting `(asset_id, cve_id, reason)`
for each hit in order.  An exception from the resolver propagates (the
source has no handler around the call). -/
def resolveVulns (asset : Asset) : List Vulnerability →
    Except Unit (List (String × String × String))
  | [] => .ok []
  | v :: rest => do
    let r ← execute_matching asset v
    let tail ← resolveVulns asset rest
    match r with
    | some reason => .ok ((asset.asset_id, v.cve_id, reason) :: tail)
    | none => .ok tail

/-- Outer loop of `execute_full_matching`: the full asset × vulnerability
cross product, in order. -/
def matchPairs : List Asset → List Vulnerability →
    Except Unit (List (String × String × String))
  | [], _ => .ok []
  | a :: rest, vulns => do
    let head ← resolveVulns a vulns
    let tail ← matchPairs rest vulns
    .ok (head ++ tail)

/-- Embedding of `execute_full_matching` (matching_service.py, lines
243-321): enumerate the cross product, collect every match stamped with
the current time `now` (the source stamps each record with `datetime.now()`
as it is found; the model stamps all records of one run with the single
run time, which the claims under verification do not distinguish), upsert
every collected record into the store, and return the statistics. -/
def execute_full_matching (db : DB) (now : Nat) : Except Unit (DB × Stats) := do
  let pairs ← matchPairs db.assets db.vulnerabilities
  let records : List MatchRecord :=
    pairs.map (fun p => ⟨p.1, p.2.1, p.2.2, now⟩)
  let store := records.foldl upsert db.store
  .ok ({ db with store := store },
    { total_assets := db.assets.length
      total_vulnerabilities := db.vulnerabilities.length
      total_matches := records.length
      exact_matches := records.countP (fun m => m.match_reason = "exact_match")
      version_range_matches := records.countP (fun m => m.match_reason = "version_range")
      wildcard_matches := records.countP (fun m => m.match_reason = "wildcard_match") })

/-- Spec-side reading of one bound check of the range predicate: an absent
bound holds vacuously, a present bound must parse and satisfy `ok`. -/
def boundHolds (pr : RangeDict) (key : String) (ok : List Nat → Bool) : Bool :=
  match dictGet pr key with
  | none => true
  | some s =>
    match parseVersion s with
    | none => false
    | some bv => ok bv

/-- Spec-side definition following the spec's words — "every present bound
must hold (logical AND)" — for comparison with the source's early-return
chain in `match_version_range`. -/
def allBoundsHold (av : List Nat) (pr : RangeDict) : Bool :=
  boundHolds pr "versionStartIncluding" (fun bv => !(ordIsLt (verCmp av bv))) &&
  boundHolds pr "versionStartExcluding" (fun bv => ordIsGt (verCmp av bv)) &&
  boundHolds pr "versionEndIncluding" (fun bv => !(ordIsGt (verCmp av bv))) &&
  boundHolds pr "versionEndExcluding" (fun bv => ordIsLt (verCmp av bv))

/-- The list of upsert keys of the match-record store. -/
def storeKeys (s : List MatchRecord) : List (String × String) :=
  s.map MatchRecord.key

/-! Helper lemmas. -/

theorem splitOnChar_ne_nil (sep : Char) (l : List Char) : splitOnChar sep l ≠ [] := by
  induction l with
  | nil => simp [splitOnChar]
  | cons c cs ih =>
    simp only [splitOnChar]
    split
    · simp
    · cases h : splitOnChar sep cs with
      | nil => simp
      | cons t ts => simp

@[simp] theorem ordIsLt_eq_true {o : Ordering} : ordIsLt o = true ↔ o = .lt := by
  cases o <;> simp [ordIsLt]

@[simp] theorem ordIsGt_eq_true {o : Ordering} : ordIsGt o = true ↔ o = .gt := by
  cases o <;> simp [ordIsGt]

theorem take_eq_iff_get? {α : Type} : ∀ (n : Nat) (a b : List α),
    (a.take n = b.take n ↔ ∀ i, i < n → a.get? i = b.get? i) := by
  intro n
  induction n with
  | zero => intro a b; simp
  | succ n ih =>
    intro a b
    cases a with
    | nil =>
      cases b with
      | nil => simp
      | cons y b' =>
        constructor
        · intro h; exact absurd h (by simp)
        · intro h
          have h0 := h 0 (Nat.succ_pos n)
          simp at h0
    | cons x a' =>
      cases b with
      | nil =>
        constructor
        · intro h; exact absurd h (by simp)
        · intro h
          have h0 := h 0 (Nat.succ_pos n)
          simp at h0
      | cons y b' =>
        rw [List.take_succ_cons, List.take_succ_cons]
        constructor
        · intro h i hi
          injection h with hx ht
          cases i with
          | zero => simp [hx]
          | succ j =>
            have := (ih a' b').mp ht j (Nat.lt_of_succ_lt_succ hi)
            simpa using this
        · intro h
          have h0 := h 0 (Nat.succ_pos n)
          simp at h0
          rw [h0]
          congr 1
          apply (ih a' b').mpr
          intro j hj
          have := h (j + 1) (Nat.succ_lt_succ hj)
          simpa using this

theorem all_star_parts (l : List String) (h : 8 ≤ l.length) :
    (((l.drop 5).take 3).all (· == "*")) =
      ((l.getD 5 "" == "*") && ((l.getD 6 "" == "*") && (l.getD 7 "" == "*"))) := by
  rcases l with _ | ⟨a, _ | ⟨b, _ | ⟨c, _ | ⟨d, _ | ⟨e, _ | ⟨f, _ | ⟨g, _ | ⟨k, rest⟩⟩⟩⟩⟩⟩⟩⟩ <;>
    simp_all [List.getD]

@[simp] theorem ordIsLt_eq_false {o : Ordering} : ordIsLt o = false ↔ o ≠ .lt := by
  cases o <;> simp [ordIsLt]

@[simp] theorem ordIsGt_eq_false {o : Ordering} : ordIsGt o = false ↔ o ≠ .gt := by
  cases o <;> simp [ordIsGt]

theorem boundFails_eq_not_boundHolds (pr : RangeDict) (k : String)
    (viol ok : List Nat → Bool) (h : ∀ bv, viol bv = !(ok bv)) :
    boundFails pr k viol = !(boundHolds pr k ok) := by
  unfold boundFails boundHolds
  split
  · rfl
  · split
    · rfl
    · simp [h]

theorem boundHolds_false_of_unparseable (pr : RangeDict) (k : String)
    (ok : List Nat → Bool) (s : String)
    (hg : dictGet pr k = some s) (hp : parseVersion s = none) :
    boundHolds pr k ok = false := by
  unfold boundHolds
  split <;> simp_all

theorem boundHolds_true_iff (pr : RangeDict) (k : String) (ok : List Nat → Bool)
    (hp : ∀ s, dictGet pr k = some s → (parseVersion s).isSome = true) :
    (boundHolds pr k ok = true ↔
      ∀ s bv, dictGet pr k = some s → parseVersion s = some bv → ok bv = true) := by
  unfold boundHolds
  split
  · simp_all
  · rename_i s hg
    split
    · rename_i hv
      have := hp s hg
      rw [hv] at this
      simp at this
    · rename_i bv hv
      constructor
      · intro h s' bv' hs' hv'
        rw [hg, Option.some.injEq] at hs'
        subst hs'
        rw [hv, Option.some.injEq] at hv'
        subst hv'
        exact h
      · intro h
        exact h s bv hg hv

/-- The early-return chain of `match_version_range` computes exactly the
spec's "every present bound must hold" conjunction. -/
theorem match_version_range_eq_allBoundsHold
    (vendor product ver : String) (ranges : List (String × RangeDict))
    (pr : RangeDict) (av : List Nat)
    (hlk : pyOrDicts (dictGet ranges product)
        (dictGet ranges (vendor ++ ":" ++ product)) = some pr)
    (hpr : pr.isEmpty = false)
    (hv : parseVersion ver = some av) :
    match_version_range vendor product ver ranges = allBoundsHold av pr := by
  have hne : ranges.isEmpty = false := by
    cases ranges with
    | nil => simp [dictGet, pyOrDicts] at hlk
    | cons a l => rfl
  have e1 := boundFails_eq_not_boundHolds pr "versionStartIncluding"
    (fun bv => ordIsLt (verCmp av bv)) (fun bv => !(ordIsLt (verCmp av bv)))
    (fun bv => by simp)
  have e2 := boundFails_eq_not_boundHolds pr "versionStartExcluding"
    (fun bv => !(ordIsGt (verCmp av bv))) (fun bv => ordIsGt (verCmp av bv))
    (fun bv => rfl)
  have e3 := boundFails_eq_not_boundHolds pr "versionEndIncluding"
    (fun bv => ordIsGt (verCmp av bv)) (fun bv => !(ordIsGt (verCmp av bv)))
    (fun bv => by simp)
  have e4 := boundFails_eq_not_boundHolds pr "versionEndExcluding"
    (fun bv => !(ordIsLt (verCmp av bv))) (fun bv => ordIsLt (verCmp av bv))
    (fun bv => rfl)
  have chain : ∀ b1 b2 b3 b4 : Bool,
      (if !b1 then false else if !b2 then false else if !b3 then false
       else if !b4 then false else true) = (b1 && b2 && b3 && b4) := by decide
  simp only [match_version_range, hne, hlk, hpr, hv, e1, e2, e3, e4,
    Bool.false_eq_true, if_false]
  exact chain _ _ _ _

/-! Claim theorems. -/

/-- C7: `match_exact` is true iff the first 8 colon-separated fields agree
token-for-token (trailing fields ignored); it is reflexive; and a
difference in the version field (index 5) alone forces a false result. -/
theorem C7_exact_characterization :
    (∀ s t : String, match_exact s t = true ↔
      ∀ i, i < 8 → (pySplit s).get? i = (pySplit t).get? i)
    ∧ (∀ s : String, match_exact s s = true)
    ∧ (∀ s t : String, (pySplit s).get? 5 ≠ (pySplit t).get? 5 →
        match_exact s t = false) := by
  have key : ∀ s t : String, match_exact s t = true ↔
      ∀ i, i < 8 → (pySplit s).get? i = (pySplit t).get? i := by
    intro s t
    unfold match_exact
    rw [decide_eq_true_iff]
    exact take_eq_iff_get? 8 _ _
  refine ⟨key, ?_, ?_⟩
  · intro s; simp [match_exact]
  · intro s t h
    cases hm : match_exact s t with
    | false => rfl
    | true => exact absurd ((key s t).mp hm 5 (by omega)) h

/-- C7 witness: a concrete pair differing only in the version field is not
an exact match. -/
theorem C7_exact_characterization_witness :
    match_exact "cpe:2.3:a:nginx:nginx:1.25.3:*:*:*:*:*:*:*"
      "cpe:2.3:a:nginx:nginx:1.25.4:*:*:*:*:*:*:*" = false :=
  C7_exact_characterization.2.2 _ _ (by decide)

/-- C6: for identifier strings with the full field structure (at least 8
colon-separated fields on each side), `match_wildcard` is true iff the
part/vendor/product fields (indices 2-4) agree and the advisory's
version/update/edition fields (indices 5-7) are all the wildcard token;
and for every pair of strings whatsoever, a concrete (non-`*`) version
field on the advisory side forces a false result. -/
theorem C6_wildcard_characterization :
    (∀ s t : String, 8 ≤ (pySplit s).length → 8 ≤ (pySplit t).length →
      (match_wildcard s t = true ↔
        ((pySplit s).getD 2 "" = (pySplit t).getD 2 "" ∧
         (pySplit s).getD 3 "" = (pySplit t).getD 3 "" ∧
         (pySplit s).getD 4 "" = (pySplit t).getD 4 "" ∧
         (pySplit t).getD 5 "" = "*" ∧ (pySplit t).getD 6 "" = "*" ∧
         (pySplit t).getD 7 "" = "*")))
    ∧ (∀ s t : String, (pySplit t).getD 5 "" ≠ "*" → match_wildcard s t = false) := by
  constructor
  · intro s t hs ht
    have h1 : decide ((pySplit s).length < 8) = false := by
      simp [Nat.not_lt.mpr hs]
    have h2 : decide ((pySplit t).length < 8) = false := by
      simp [Nat.not_lt.mpr ht]
    simp only [match_wildcard, h1, h2, Bool.or_self, Bool.false_or, if_false,
      all_star_parts _ ht]
    cases hb2 : ((pySplit s).getD 2 "" != (pySplit t).getD 2 "") <;>
      cases hb3 : ((pySplit s).getD 3 "" != (pySplit t).getD 3 "") <;>
        cases hb4 : ((pySplit s).getD 4 "" != (pySplit t).getD 4 "") <;>
          simp_all [bne_eq_false_iff_eq, bne_iff_ne]
  · intro s t h
    cases hlen : decide ((pySplit s).length < 8 ∨ (pySplit t).length < 8) with
    | true =>
      rw [decide_eq_true_iff] at hlen
      simp only [match_wildcard]
      rcases hlen with hl | hl <;> simp [hl]
    | false =>
      rw [decide_eq_false_iff_not, not_or, Nat.not_lt, Nat.not_lt] at hlen
      obtain ⟨hs, ht⟩ := hlen
      have h1 : decide ((pySplit s).length < 8) = false := by
        simp [Nat.not_lt.mpr hs]
      have h2 : decide ((pySplit t).length < 8) = false := by
        simp [Nat.not_lt.mpr ht]
      simp only [match_wildcard, h1, h2, Bool.or_self, Bool.false_or, if_false,
        all_star_parts _ ht]
      cases hb2 : ((pySplit s).getD 2 "" != (pySplit t).getD 2 "") <;>
        cases hb3 : ((pySplit s).getD 3 "" != (pySplit t).getD 3 "") <;>
          cases hb4 : ((pySplit s).getD 4 "" != (pySplit t).getD 4 "") <;>
            simp_all [bne_eq_false_iff_eq, bne_iff_ne]

/-- C6 witness: the concrete wildcard advisory identifier family-matches
the concrete asset identifier. -/
theorem C6_wildcard_characterization_witness :
    match_wildcard "cpe:2.3:a:nginx:nginx:1.25.3:*:*:*:*:*:*:*"
      "cpe:2.3:a:nginx:nginx:*:*:*:*:*:*:*:*" = true :=
  (C6_wildcard_characterization.1 _ _ (by decide) (by decide)).mpr (by decide)

/-- C2 counterexample: a ranges map with an entry for the asset's product
key whose constraint dict is literally empty (zero of the four bound keys,
and no other key either).  The asset's version parses, yet
`match_version_range` returns false, because the empty dict is falsy in
the `ranges.get(product) or ...` / `if not product_ranges` logic — the
claim as stated demands true here. -/
theorem C2_empty_entry_counterexample :
    match_version_range "nginx" "nginx" "1.25.3" [("nginx", ([] : RangeDict))] = false
    ∧ (parseVersion "1.25.3").isSome = true := by
  exact ⟨rfl, by decide⟩

/-- C2 amended: a range entry present in the map with zero of the four
bound keys set evaluates true for any version that parses, provided the
entry dict is non-empty (it carries at least one key other than the four
bound keys); a literally empty entry dict is falsy and the predicate
returns false instead. -/
theorem C2_empty_constraint_amended :
    ∀ (vendor product ver : String) (ranges : List (String × RangeDict)) (pr : RangeDict),
      pyOrDicts (dictGet ranges product)
        (dictGet ranges (vendor ++ ":" ++ product)) = some pr →
      pr.isEmpty = false →
      dictGet pr "versionStartIncluding" = none →
      dictGet pr "versionStartExcluding" = none →
      dictGet pr "versionEndIncluding" = none →
      dictGet pr "versionEndExcluding" = none →
      (parseVersion ver).isSome = true →
      match_version_range vendor product ver ranges = true := by
  intro vendor product ver ranges pr hlk hpr h1 h2 h3 h4 hv
  obtain ⟨av, hav⟩ := Option.isSome_iff_exists.mp hv
  rw [match_version_range_eq_allBoundsHold vendor product ver ranges pr av hlk hpr hav]
  simp [allBoundsHold, boundHolds, h1, h2, h3, h4]

/-- C2 witness: an entry with one non-bound key and zero bound keys
matches (this mirrors the repository's own
`test_version_range_invalid_range_format`). -/
theorem C2_empty_constraint_amended_witness :
    match_version_range "nginx" "nginx" "1.25.3"
      [("nginx", [("invalid_key", "1.25.0")])] = true :=
  C2_empty_constraint_amended "nginx" "nginx" "1.25.3"
    [("nginx", [("invalid_key", "1.25.0")])] [("invalid_key", "1.25.0")]
    rfl rfl (by decide) (by decide) (by decide) (by decide) (by decide)

/-- C3: the range predicate returns false when neither the bare product
key nor the vendor:product composite is present; when the lookup succeeds
(a truthy entry) and the asset version and every present bound value
parse, it returns true iff every present bound holds (start-inclusive ≥,
start-exclusive >, end-inclusive ≤, end-exclusive <, as a logical AND);
and the spec's concrete inclusivity and AND-flip examples hold. -/
theorem C3_range_characterization :
    (∀ (vendor product ver : String) (ranges : List (String × RangeDict)),
      dictGet ranges product = none →
      dictGet ranges (vendor ++ ":" ++ product) = none →
      match_version_range vendor product ver ranges = false)
    ∧ (∀ (vendor product ver : String) (ranges : List (String × RangeDict))
        (pr : RangeDict) (av : List Nat),
        pyOrDicts (dictGet ranges product)
          (dictGet ranges (vendor ++ ":" ++ product)) = some pr →
        pr.isEmpty = false →
        parseVersion ver = some av →
        (∀ k, k ∈ ["versionStartIncluding", "versionStartExcluding",
            "versionEndIncluding", "versionEndExcluding"] →
          ∀ s, dictGet pr k = some s → (parseVersion s).isSome = true) →
        (match_version_range vendor product ver ranges = true ↔
          ((∀ s bv, dictGet pr "versionStartIncluding" = some s →
              parseVersion s = some bv → verCmp av bv ≠ .lt) ∧
           (∀ s bv, dictGet pr "versionStartExcluding" = some s →
              parseVersion s = some bv → verCmp av bv = .gt) ∧
           (∀ s bv, dictGet pr "versionEndIncluding" = some s →
              parseVersion s = some bv → verCmp av bv ≠ .gt) ∧
           (∀ s bv, dictGet pr "versionEndExcluding" = some s →
              parseVersion s = some bv → verCmp av bv = .lt))))
    ∧ (match_version_range "nginx" "nginx" "1.25.0"
        [("nginx", [("versionStartIncluding", "1.25.0"),
          ("versionEndExcluding", "1.25.4")])] = true
      ∧ match_version_range "nginx" "nginx" "1.25.3"
        [("nginx", [("versionStartIncluding", "1.25.0"),
          ("versionEndExcluding", "1.25.4")])] = true
      ∧ match_version_range "nginx" "nginx" "1.24.9"
        [("nginx", [("versionStartIncluding", "1.25.0"),
          ("versionEndExcluding", "1.25.4")])] = false
      ∧ match_version_range "nginx" "nginx" "1.25.4"
        [("nginx", [("versionStartIncluding", "1.25.0"),
          ("versionEndExcluding", "1.25.4")])] = false)
    ∧ (match_version_range "nginx" "nginx" "1.25.3"
        [("nginx", [("versionStartIncluding", "1.25.0")])] = true
      ∧ match_version_range "nginx" "nginx" "1.25.3"
        [("nginx", [("versionStartIncluding", "1.25.0"),
          ("versionEndExcluding", "1.25.2")])] = false) := by
  refine ⟨?_, ?_, by decide, by decide⟩
  · intro vendor product ver ranges h1 h2
    simp only [match_version_range, h1, h2, pyOrDicts]
    split <;> rfl
  · intro vendor product ver ranges pr av hlk hpr hv hp
    rw [match_version_range_eq_allBoundsHold vendor product ver ranges pr av hlk hpr hv]
    unfold allBoundsHold
    rw [Bool.and_eq_true, Bool.and_eq_true, Bool.and_eq_true]
    rw [boundHolds_true_iff pr "versionStartIncluding" _ (hp _ (by simp)),
      boundHolds_true_iff pr "versionStartExcluding" _ (hp _ (by simp)),
      boundHolds_true_iff pr "versionEndIncluding" _ (hp _ (by simp)),
      boundHolds_true_iff pr "versionEndExcluding" _ (hp _ (by simp))]
    simp [and_assoc]

/-- C3 witness: an absent product key (both forms) yields no range match. -/
theorem C3_range_characterization_witness :
    match_version_range "nginx" "nginx" "1.25.3"
      [("apache", [("versionStartIncluding", "2.4.0")])] = false :=
  C3_range_characterization.1 "nginx" "nginx" "1.25.3"
    [("apache", [("versionStartIncluding", "2.4.0")])] (by decide) (by decide)

/-- C4: the range predicate fails closed — an asset version that does not
parse yields false, and a present bound whose value does not parse yields
false no matter what the other bounds say (the source's `try/except`
blocks that swallow the parse exception are embedded as the `none` cases
of the Option-valued parser, so the embedding is total by construction). -/
theorem C4_fail_closed :
    (∀ (vendor product ver : String) (ranges : List (String × RangeDict)),
      parseVersion ver = none →
      match_version_range vendor product ver ranges = false)
    ∧ (∀ (vendor product ver : String) (ranges : List (String × RangeDict))
        (pr : RangeDict) (k s : String),
        pyOrDicts (dictGet ranges product)
          (dictGet ranges (vendor ++ ":" ++ product)) = some pr →
        k ∈ ["versionStartIncluding", "versionStartExcluding",
            "versionEndIncluding", "versionEndExcluding"] →
        dictGet pr k = some s →
        parseVersion s = none →
        match_version_range vendor product ver ranges = false) := by
  have conj1 : ∀ (vendor product ver : String) (ranges : List (String × RangeDict)),
      parseVersion ver = none →
      match_version_range vendor product ver ranges = false := by
    intro vendor product ver ranges h
    simp only [match_version_range, h]
    split
    · rfl
    · split
      · rfl
      · split <;> rfl
  refine ⟨conj1, ?_⟩
  intro vendor product ver ranges pr k s hlk hk hgs hpn
  have hpr : pr.isEmpty = false := by
    cases pr with
    | nil => simp [dictGet] at hgs
    | cons a l => rfl
  cases hv : parseVersion ver with
  | none => exact conj1 vendor product ver ranges hv
  | some av =>
    rw [match_version_range_eq_allBoundsHold vendor product ver ranges pr av hlk hpr hv]
    fin_cases hk <;>
      simp [allBoundsHold, boundHolds_false_of_unparseable pr _ _ s hgs hpn]

/-- C4 witness: an unparseable end bound forces false even though the
start bound is present, parseable and satisfied. -/
theorem C4_fail_closed_witness :
    match_version_range "nginx" "nginx" "1.25.3"
      [("nginx", [("versionStartIncluding", "1.25.0"),
        ("versionEndExcluding", "bogus")])] = false :=
  C4_fail_closed.2 "nginx" "nginx" "1.25.3"
    [("nginx", [("versionStartIncluding", "1.25.0"), ("versionEndExcluding", "bogus")])]
    [("versionStartIncluding", "1.25.0"), ("versionEndExcluding", "bogus")]
    "versionEndExcluding" "bogus" rfl (by decide) (by decide) (by decide)

/-- C1: for every asset and every advisory whose stored payload reads
cleanly (an identifier list and a ranges map are obtained), the resolver
applies exact match over every advisory identifier first, then the
version-range lookup, then wildcard match, returning the first kind that
succeeds and `none` when none does; in particular, when some advisory
identifier exact-matches and some identifier wildcard-matches, the result
is exact, never wildcard. -/
theorem C1_resolver_priority :
    ∀ (a : Asset) (v : Vulnerability) (cpe : List String)
      (vr : List (String × RangeDict)),
      extract_cpe_from_vulnerability v = .ok cpe →
      get_version_ranges v = .ok vr →
      (execute_matching a v = .ok (
        if cpe.any (fun c => match_exact a.cpe_code c) then some "exact_match"
        else if (!vr.isEmpty &&
            (match extract_cpe_parts a.cpe_code with
             | some ps => match_version_range ps.vendor ps.product ps.version vr
             | none => false)) then some "version_range"
        else if cpe.any (fun c => match_wildcard a.cpe_code c) then some "wildcard_match"
        else none))
      ∧ (cpe.any (fun c => match_exact a.cpe_code c) = true →
         cpe.any (fun c => match_wildcard a.cpe_code c) = true →
         execute_matching a v = .ok (some "exact_match")) := by
  intro a v cpe vr h1 h2
  have hbc : ∀ (b c : Bool), (if b then c else false) = (b && c) := by decide
  have main : execute_matching a v = .ok (
      if cpe.any (fun c => match_exact a.cpe_code c) then some "exact_match"
      else if (!vr.isEmpty &&
          (match extract_cpe_parts a.cpe_code with
           | some ps => match_version_range ps.vendor ps.product ps.version vr
           | none => false)) then some "version_range"
      else if cpe.any (fun c => match_wildcard a.cpe_code c) then some "wildcard_match"
      else none) := by
    cases hc1 : cpe.any (fun c => match_exact a.cpe_code c) <;>
      cases hve : vr.isEmpty <;>
        cases hm : (match extract_cpe_parts a.cpe_code with
            | some ps => match_version_range ps.vendor ps.product ps.version vr
            | none => false) <;>
          cases hc3 : cpe.any (fun c => match_wildcard a.cpe_code c) <;>
            simp [execute_matching, h1, h2, hbc, hc1, hve, hm, hc3,
              Except.pure, Except.bind, bind, pure]
  refine ⟨main, ?_⟩
  intro hext _hwild
  rw [main, if_pos hext]

/-- C1 witness: an advisory exposing both an exact-matching identifier and
a wildcard-matching identifier for the same asset resolves to exact. -/
theorem C1_resolver_priority_witness :
    execute_matching ⟨"A1", "cpe:2.3:a:nginx:nginx:1.25.3:*:*:*:*:*:*:*"⟩
      ⟨"CVE-1", some (.ok ["cpe:2.3:a:nginx:nginx:1.25.3:*:*:*:*:*:*:*",
        "cpe:2.3:a:nginx:nginx:*:*:*:*:*:*:*:*"] [])⟩ = .ok (some "exact_match") :=
  (C1_resolver_priority ⟨"A1", "cpe:2.3:a:nginx:nginx:1.25.3:*:*:*:*:*:*:*"⟩
    ⟨"CVE-1", some (.ok ["cpe:2.3:a:nginx:nginx:1.25.3:*:*:*:*:*:*:*",
      "cpe:2.3:a:nginx:nginx:*:*:*:*:*:*:*:*"] [])⟩
    ["cpe:2.3:a:nginx:nginx:1.25.3:*:*:*:*:*:*:*",
      "cpe:2.3:a:nginx:nginx:*:*:*:*:*:*:*:*"] [] rfl rfl).2 (by decide) (by decide)

/-- C8 counterexample: the canonical serialized identifier has 13
colon-separated tokens, not 12, and a 6-token truncation also parses —
both contradict the claim that every string that is not exactly 12 tokens
with the fixed prefix yields `none`. -/
theorem C8_not_twelve_counterexample :
    extract_cpe_parts "cpe:2.3:a:nginx:nginx:1.25.3:*:*:*:*:*:*:*" =
      some ⟨"a", "nginx", "nginx", "1.25.3"⟩
    ∧ (pySplit "cpe:2.3:a:nginx:nginx:1.25.3:*:*:*:*:*:*:*").length ≠ 12
    ∧ extract_cpe_parts "cpe:2.3:a:nginx:nginx:1.25.3" =
      some ⟨"a", "nginx", "nginx", "1.25.3"⟩
    ∧ (pySplit "cpe:2.3:a:nginx:nginx:1.25.3").length = 6 := by
  exact ⟨rfl, by decide, rfl, by decide⟩

/-- C8 amended: `extract_cpe_parts` validates the fixed `cpe`/`2.3` prefix
and a minimum field count — it returns `none` exactly when the string has
fewer than 6 colon-separated tokens or a wrong prefix, never raising; any
accepted string (including the canonical 13-token serialized identifier)
yields the part, vendor, product and version components (tokens 3-6). -/
theorem C8_extract_validation_amended :
    ∀ s : String,
      (extract_cpe_parts s = none ↔
        ((pySplit s).length < 6 ∨ (pySplit s).getD 0 "" ≠ "cpe" ∨
         (pySplit s).getD 1 "" ≠ "2.3"))
      ∧ (∀ ps, extract_cpe_parts s = some ps →
          ps = ⟨(pySplit s).getD 2 "", (pySplit s).getD 3 "",
            (pySplit s).getD 4 "", (pySplit s).getD 5 ""⟩) := by
  intro s
  simp only [extract_cpe_parts]
  constructor
  · split
    · rename_i hcond
      simp only [Bool.or_eq_true, decide_eq_true_eq, bne_iff_ne, ne_eq,
        List.getD_eq_getElem?_getD] at hcond
      simp only [List.getD_eq_getElem?_getD]
      simp only [eq_self_iff_true, true_iff]
      tauto
    · rename_i hcond
      simp only [Bool.or_eq_true, decide_eq_true_eq, bne_iff_ne, ne_eq,
        List.getD_eq_getElem?_getD] at hcond
      push_neg at hcond
      simp only [List.getD_eq_getElem?_getD]
      simp only [reduceCtorEq, false_iff, not_or, not_lt, ne_eq, not_not]
      exact ⟨hcond.1.1, hcond.1.2, hcond.2⟩
  · intro ps hps
    split at hps
    · cases hps
    · rw [Option.some.injEq] at hps
      exact hps.symm

/-- C8 amended witness: the canonical identifier's extraction returns
exactly tokens 3-6. -/
theorem C8_extract_validation_amended_witness :
    (⟨"a", "nginx", "nginx", "1.25.3"⟩ : CpeParts) =
      ⟨(pySplit "cpe:2.3:a:nginx:nginx:1.25.3:*:*:*:*:*:*:*").getD 2 "",
       (pySplit "cpe:2.3:a:nginx:nginx:1.25.3:*:*:*:*:*:*:*").getD 3 "",
       (pySplit "cpe:2.3:a:nginx:nginx:1.25.3:*:*:*:*:*:*:*").getD 4 "",
       (pySplit "cpe:2.3:a:nginx:nginx:1.25.3:*:*:*:*:*:*:*").getD 5 ""⟩ :=
  (C8_extract_validation_amended "cpe:2.3:a:nginx:nginx:1.25.3:*:*:*:*:*:*:*").2
    ⟨"a", "nginx", "nginx", "1.25.3"⟩ rfl

/-- C9: the batch engine has no handler around the per-pair resolver call
(matching_service.py lines 281-293), so one corrupt stored advisory record
aborts the whole batch with nothing written — even though another pair in
the same batch would have matched.  The claim (resolver failures are
isolated and skipped) states the spec's required failure semantics, which
the code does not implement. -/
theorem C9_batch_aborts_on_corrupt_pair :
    execute_full_matching
      ⟨[⟨"A1", "cpe:2.3:a:nginx:nginx:1.25.3:*:*:*:*:*:*:*"⟩],
       [⟨"CVE-BAD", some .corrupt⟩,
        ⟨"CVE-GOOD", some (.ok ["cpe:2.3:a:nginx:nginx:1.25.3:*:*:*:*:*:*:*"] [])⟩],
       []⟩ 0 = .error ()
    ∧ execute_matching ⟨"A1", "cpe:2.3:a:nginx:nginx:1.25.3:*:*:*:*:*:*:*"⟩
        ⟨"CVE-GOOD", some (.ok ["cpe:2.3:a:nginx:nginx:1.25.3:*:*:*:*:*:*:*"] [])⟩ =
      .ok (some "exact_match") :=
  ⟨rfl, rfl⟩

theorem storeKeys_map_preserve (s : List MatchRecord) (f : MatchRecord → MatchRecord)
    (h : ∀ r, (f r).key = r.key) : storeKeys (s.map f) = storeKeys s := by
  unfold storeKeys
  rw [List.map_map]
  apply List.map_congr_left
  intro r _
  exact h r

theorem storeKeys_upsert_of_mem (s : List MatchRecord) (m : MatchRecord)
    (h : m.key ∈ storeKeys s) : storeKeys (upsert s m) = storeKeys s := by
  obtain ⟨r, hr, hkey⟩ := List.mem_map.mp h
  unfold upsert
  rw [if_pos (List.any_eq_true.mpr ⟨r, hr, by simp [hkey]⟩)]
  exact storeKeys_map_preserve s _ (fun r => by split <;> rfl)

theorem storeKeys_upsert_of_not_mem (s : List MatchRecord) (m : MatchRecord)
    (h : m.key ∉ storeKeys s) : storeKeys (upsert s m) = storeKeys s ++ [m.key] := by
  unfold upsert
  rw [if_neg]
  · simp [storeKeys]
  · intro hc
    obtain ⟨r, hr, hkey⟩ := List.any_eq_true.mp hc
    simp only [decide_eq_true_eq] at hkey
    exact h (hkey ▸ List.mem_map_of_mem MatchRecord.key hr)

theorem mem_storeKeys_upsert_self (s : List MatchRecord) (m : MatchRecord) :
    m.key ∈ storeKeys (upsert s m) := by
  by_cases h : m.key ∈ storeKeys s
  · rw [storeKeys_upsert_of_mem s m h]; exact h
  · rw [storeKeys_upsert_of_not_mem s m h]; simp

theorem mem_storeKeys_upsert_of_mem (s : List MatchRecord) (m : MatchRecord)
    (k : String × String) (h : k ∈ storeKeys s) : k ∈ storeKeys (upsert s m) := by
  by_cases hm : m.key ∈ storeKeys s
  · rw [storeKeys_upsert_of_mem s m hm]; exact h
  · rw [storeKeys_upsert_of_not_mem s m hm]; exact List.mem_append_left _ h

theorem mem_storeKeys_foldl_of_mem (ms : List MatchRecord) (s : List MatchRecord)
    (k : String × String) (h : k ∈ storeKeys s) :
    k ∈ storeKeys (ms.foldl upsert s) := by
  induction ms generalizing s with
  | nil => exact h
  | cons m ms ih => exact ih _ (mem_storeKeys_upsert_of_mem _ _ _ h)

theorem mem_storeKeys_foldl_self (ms : List MatchRecord) (s : List MatchRecord) :
    ∀ m ∈ ms, m.key ∈ storeKeys (ms.foldl upsert s) := by
  induction ms generalizing s with
  | nil => intro m h; cases h
  | cons m0 ms ih =>
    intro m hm
    rcases List.mem_cons.mp hm with rfl | hm'
    · rw [List.foldl_cons]
      exact mem_storeKeys_foldl_of_mem _ _ _ (mem_storeKeys_upsert_self _ _)
    · exact ih _ m hm'

theorem storeKeys_foldl_of_all_mem (ms : List MatchRecord) (s : List MatchRecord)
    (h : ∀ m ∈ ms, m.key ∈ storeKeys s) :
    storeKeys (ms.foldl upsert s) = storeKeys s := by
  induction ms generalizing s with
  | nil => rfl
  | cons m0 ms ih =>
    have h0 := h m0 (List.mem_cons_self m0 ms)
    rw [List.foldl_cons,
      ih (upsert s m0) (fun m hm => by
        rw [storeKeys_upsert_of_mem s m0 h0]
        exact h m (List.mem_cons_of_mem m0 hm)),
      storeKeys_upsert_of_mem s m0 h0]

theorem nodup_storeKeys_upsert (s : List MatchRecord) (m : MatchRecord)
    (h : (storeKeys s).Nodup) : (storeKeys (upsert s m)).Nodup := by
  by_cases hm : m.key ∈ storeKeys s
  · rw [storeKeys_upsert_of_mem s m hm]; exact h
  · rw [storeKeys_upsert_of_not_mem s m hm]
    rw [List.nodup_append]
    refine ⟨h, List.nodup_singleton _, ?_⟩
    intro x hx hx'
    simp only [List.mem_singleton] at hx'
    exact hm (hx' ▸ hx)

theorem nodup_storeKeys_foldl (ms : List MatchRecord) (s : List MatchRecord)
    (h : (storeKeys s).Nodup) : (storeKeys (ms.foldl upsert s)).Nodup := by
  induction ms generalizing s with
  | nil => exact h
  | cons m ms ih => exact ih _ (nodup_storeKeys_upsert _ _ h)

/-- C5: running the batch engine a second time with unchanged assets and
vulnerabilities succeeds, returns the same statistics (in particular the
same `total_matches`), leaves the list of (asset_id, cve_id) keys of the
match-record store unchanged, does not grow the row count, and preserves
the uniqueness of the (asset_id, cve_id) pairs — only the stored
timestamps are refreshed, because every candidate is upserted keyed by
the unique (asset_id, cve_id) pair. -/
theorem C5_idempotent_batch :
    ∀ (db : DB) (t1 t2 : Nat) (db1 : DB) (s1 : Stats),
      (storeKeys db.store).Nodup →
      execute_full_matching db t1 = .ok (db1, s1) →
      ∃ (db2 : DB) (s2 : Stats),
        execute_full_matching db1 t2 = .ok (db2, s2) ∧
        s2 = s1 ∧
        storeKeys db2.store = storeKeys db1.store ∧
        db2.store.length = db1.store.length ∧
        (storeKeys db1.store).Nodup ∧ (storeKeys db2.store).Nodup := by
  intro db t1 t2 db1 s1 hnd hrun
  cases hmp : matchPairs db.assets db.vulnerabilities with
  | error e =>
    simp only [execute_full_matching, hmp, bind, Except.bind] at hrun
    cases hrun
  | ok pairs =>
    simp only [execute_full_matching, hmp, bind, Except.bind, Except.ok.injEq,
      Prod.mk.injEq] at hrun
    obtain ⟨hdb1, hs1⟩ := hrun
    subst hdb1
    subst hs1
    have hkeys2 : storeKeys
        ((pairs.map (fun p => (⟨p.1, p.2.1, p.2.2, t2⟩ : MatchRecord))).foldl upsert
          ((pairs.map (fun p => (⟨p.1, p.2.1, p.2.2, t1⟩ : MatchRecord))).foldl upsert
            db.store)) =
        storeKeys ((pairs.map (fun p => (⟨p.1, p.2.1, p.2.2, t1⟩ : MatchRecord))).foldl
          upsert db.store) := by
      apply storeKeys_foldl_of_all_mem
      intro m hm
      obtain ⟨p, hp, rfl⟩ := List.mem_map.mp hm
      have h1 := mem_storeKeys_foldl_self
        (pairs.map (fun p => (⟨p.1, p.2.1, p.2.2, t1⟩ : MatchRecord))) db.store
        (⟨p.1, p.2.1, p.2.2, t1⟩ : MatchRecord)
        (List.mem_map_of_mem (fun p => (⟨p.1, p.2.1, p.2.2, t1⟩ : MatchRecord)) hp)
      exact h1
    have hnd1 : (storeKeys
        ((pairs.map (fun p => (⟨p.1, p.2.1, p.2.2, t1⟩ : MatchRecord))).foldl upsert
          db.store)).Nodup := nodup_storeKeys_foldl _ _ hnd
    set R1 := pairs.map (fun p => (⟨p.1, p.2.1, p.2.2, t1⟩ : MatchRecord)) with hR1
    set R2 := pairs.map (fun p => (⟨p.1, p.2.1, p.2.2, t2⟩ : MatchRecord)) with hR2
    set st2 := R2.foldl upsert (R1.foldl upsert db.store) with hst2
    refine ⟨DB.mk db.assets db.vulnerabilities st2,
      Stats.mk db.assets.length db.vulnerabilities.length R2.length
        (R2.countP (fun m => m.match_reason = "exact_match"))
        (R2.countP (fun m => m.match_reason = "version_range"))
        (R2.countP (fun m => m.match_reason = "wildcard_match")),
      ?_, ?_, ?_, ?_, ?_, ?_⟩
    · simp only [execute_full_matching, hmp, bind, Except.bind]
    · have hlen : R2.length = R1.length := by
        simp only [hR2, hR1, List.length_map]
      have hc1 : R2.countP (fun m => m.match_reason = "exact_match") =
          R1.countP (fun m => m.match_reason = "exact_match") := by
        simp only [hR2, hR1, List.countP_map]; rfl
      have hc2 : R2.countP (fun m => m.match_reason = "version_range") =
          R1.countP (fun m => m.match_reason = "version_range") := by
        simp only [hR2, hR1, List.countP_map]; rfl
      have hc3 : R2.countP (fun m => m.match_reason = "wildcard_match") =
          R1.countP (fun m => m.match_reason = "wildcard_match") := by
        simp only [hR2, hR1, List.countP_map]; rfl
      rw [hlen, hc1, hc2, hc3]
    · exact hkeys2
    · have := congrArg List.length hkeys2
      simpa [storeKeys] using this
    · exact hnd1
    · exact hkeys2 ▸ hnd1

/-- C5 witness: a second run over a one-asset, one-advisory database whose
store already holds the first run's row succeeds with the same statistics
and an unchanged key set and row count. -/
theorem C5_idempotent_batch_witness :
    ∃ (db2 : DB) (s2 : Stats),
      execute_full_matching
        ⟨[⟨"A1", "cpe:2.3:a:nginx:nginx:1.25.3:*:*:*:*:*:*:*"⟩],
         [⟨"CVE-1", some (.ok ["cpe:2.3:a:nginx:nginx:1.25.3:*:*:*:*:*:*:*"] [])⟩],
         [⟨"A1", "CVE-1", "exact_match", 0⟩]⟩ 1 = .ok (db2, s2) ∧
      s2 = ⟨1, 1, 1, 1, 0, 0⟩ ∧
      storeKeys db2.store = storeKeys [⟨"A1", "CVE-1", "exact_match", 0⟩] ∧
      db2.store.length = ([(⟨"A1", "CVE-1", "exact_match", 0⟩ : MatchRecord)]).length ∧
      (storeKeys [(⟨"A1", "CVE-1", "exact_match", 0⟩ : MatchRecord)]).Nodup ∧
      (storeKeys db2.store).Nodup :=
  C5_idempotent_batch
    ⟨[⟨"A1", "cpe:2.3:a:nginx:nginx:1.25.3:*:*:*:*:*:*:*"⟩],
     [⟨"CVE-1", some (.ok ["cpe:2.3:a:nginx:nginx:1.25.3:*:*:*:*:*:*:*"] [])⟩], []⟩ 0 1
    ⟨[⟨"A1", "cpe:2.3:a:nginx:nginx:1.25.3:*:*:*:*:*:*:*"⟩],
     [⟨"CVE-1", some (.ok ["cpe:2.3:a:nginx:nginx:1.25.3:*:*:*:*:*:*:*"] [])⟩],
     [⟨"A1", "CVE-1", "exact_match", 0⟩]⟩
    ⟨1, 1, 1, 1, 0, 0⟩ (by simp [storeKeys]) rfl

theorem splitOnChar_append_cons (sep : Char) (xs rest : List Char) (h : sep ∉ xs) :
    splitOnChar sep (xs ++ sep :: rest) = xs :: splitOnChar sep rest := by
  induction xs with
  | nil => simp [splitOnChar]
  | cons c cs ih =>
    have hc : ¬(c = sep) := fun hcc => h (hcc ▸ List.mem_cons_self c cs)
    have hcs : sep ∉ cs := fun hm => h (List.mem_cons_of_mem c hm)
    simp only [List.cons_append, splitOnChar, List.append_eq]
    rw [if_neg hc, ih hcs]

/-- The colon-separated decomposition of a generated CPE string whose
three interpolated components contain no colon. -/
theorem split_cpe_shape (a b c : List Char)
    (ha : ':' ∉ a) (hb : ':' ∉ b) (hc : ':' ∉ c) :
    splitOnChar ':' ('c' :: 'p' :: 'e' :: ':' :: '2' :: '.' :: '3' :: ':' :: 'a' :: ':' ::
      (a ++ ':' :: (b ++ ':' :: (c ++
        [':', '*', ':', '*', ':', '*', ':', '*', ':', '*', ':', '*', ':', '*'])))) =
    [['c','p','e'], ['2','.','3'], ['a'], a, b, c,
     ['*'], ['*'], ['*'], ['*'], ['*'], ['*'], ['*']] := by
  show splitOnChar ':' (['c','p','e'] ++ ':' :: (['2','.','3'] ++ ':' :: (['a'] ++ ':' ::
      (a ++ ':' :: (b ++ ':' :: (c ++ ':' ::
        ['*', ':', '*', ':', '*', ':', '*', ':', '*', ':', '*', ':', '*'])))))) = _
  rw [splitOnChar_append_cons ':' ['c','p','e'] _ (by decide),
    splitOnChar_append_cons ':' ['2','.','3'] _ (by decide),
    splitOnChar_append_cons ':' ['a'] _ (by decide),
    splitOnChar_append_cons ':' a _ ha,
    splitOnChar_append_cons ':' b _ hb,
    splitOnChar_append_cons ':' c _ hc]
  rfl

/-- C10: generating an identifier from manual input and parsing it back
round-trips whenever the normalized vendor, product and version contain no
colon: extraction succeeds with part "a" and the three normalized
components, and all seven trailing fields of the generated identifier are
the wildcard token. -/
theorem C10_generate_extract_roundtrip :
    ∀ vendor product version : String,
      ':' ∉ (normalize_name vendor).data →
      ':' ∉ (normalize_name product).data →
      ':' ∉ (normalize_version version).data →
      extract_cpe_parts (generate_cpe_from_manual vendor product version) =
        some ⟨"a", normalize_name vendor, normalize_name product,
          normalize_version version⟩
      ∧ (pySplit (generate_cpe_from_manual vendor product version)).drop 6 =
        ["*", "*", "*", "*", "*", "*", "*"] := by
  intro vendor product version hv hp hver
  have hdata : (generate_cpe_from_manual vendor product version).data =
      'c' :: 'p' :: 'e' :: ':' :: '2' :: '.' :: '3' :: ':' :: 'a' :: ':' ::
        ((normalize_name vendor).data ++ ':' :: ((normalize_name product).data ++ ':' ::
          ((normalize_version version).data ++
            [':', '*', ':', '*', ':', '*', ':', '*', ':', '*', ':', '*', ':', '*']))) := by
    show ("cpe:2.3:a:" ++ normalize_name vendor ++ ":" ++ normalize_name product ++ ":"
      ++ normalize_version version ++ ":*:*:*:*:*:*:*").data = _
    simp only [String.data_append]
    show ['c','p','e',':','2','.','3',':','a',':'] ++ (normalize_name vendor).data ++ [':']
      ++ (normalize_name product).data ++ [':'] ++ (normalize_version version).data
      ++ [':', '*', ':', '*', ':', '*', ':', '*', ':', '*', ':', '*', ':', '*'] = _
    simp only [List.append_assoc, List.cons_append, List.nil_append, List.singleton_append]
  have hsplit : pySplit (generate_cpe_from_manual vendor product version) =
      ["cpe", "2.3", "a", normalize_name vendor, normalize_name product,
       normalize_version version, "*", "*", "*", "*", "*", "*", "*"] := by
    unfold pySplit
    rw [hdata, split_cpe_shape _ _ _ hv hp hver]
    rfl
  constructor
  · simp only [extract_cpe_parts, hsplit]
    rfl
  · rw [hsplit]
    rfl

/-- C10 witness: the round trip at the spec's own manual-entry example. -/
theorem C10_generate_extract_roundtrip_witness :
    extract_cpe_parts (generate_cpe_from_manual "Nginx" "Nginx" "1.25.3") =
      some ⟨"a", normalize_name "Nginx", normalize_name "Nginx",
        normalize_version "1.25.3"⟩
    ∧ (pySplit (generate_cpe_from_manual "Nginx" "Nginx" "1.25.3")).drop 6 =
      ["*", "*", "*", "*", "*", "*", "*"] :=
  C10_generate_extract_roundtrip "Nginx" "Nginx" "1.25.3"
    (by decide) (by decide) (by decide)

end ZjsProof
